import Mathlib

set_option maxRecDepth 20000
set_option maxHeartbeats 1000000

namespace Binwalk

/-!
Shallow embedding of `src/extractors/common.rs`.

Rust `String` values are modelled as `List Char`; the path separator
`path::MAIN_SEPARATOR` is the character `'/'` (the crate only builds on
unix targets, where `MAIN_SEPARATOR` is `'/'`).
-/

/-- Splits a character list on `'/'`, mirroring Rust's
`file_path.split(path::MAIN_SEPARATOR)` (empty segments are kept, the
result is never empty). -/
def splitSlash : List Char → List (List Char)
  | [] => [[]]
  | c :: rest =>
    if c = '/' then [] :: splitSlash rest
    else
      match splitSlash rest with
      | [] => [[c]]
      | s :: ss => (c :: s) :: ss

/-- Embeds `strip_double_slash` (common.rs lines 80-86): Rust
`str::replace("//", "/")`, which rewrites non-overlapping occurrences of
`"//"` left to right into `"/"`. -/
def strip_double_slash : List Char → List Char
  | [] => []
  | [c] => [c]
  | a :: b :: rest =>
    if a = '/' ∧ b = '/' then '/' :: strip_double_slash rest
    else a :: strip_double_slash (b :: rest)

/-- `true` when the list contains two adjacent separators `"//"`. -/
def hasDS : List Char → Bool
  | [] => false
  | [_] => false
  | a :: b :: rest => (decide (a = '/') && decide (b = '/')) || hasDS (b :: rest)

/-- The backwards walk of `sanitize_path` (common.rs lines 109-112):
`let mut j = i - 1; while j > 0 && exclude_indicies.contains(&j) { j -= 1; }`,
started at the value of `i - 1`. -/
def backScan (excl : List Nat) : Nat → Nat
  | 0 => 0
  | j + 1 => if (j + 1) ∈ excl then backScan excl j else (j + 1)

/-- One step of the exclusion loop of `sanitize_path` (common.rs lines
103-119) at index `i`: a `".."` part is excluded together with the nearest
preceding not-yet-excluded part; an empty part is excluded. -/
def excludeStep (path_parts : List (List Char)) (excl : List Nat) (i : Nat) : List Nat :=
  if path_parts.getD i [] = ['.', '.'] then
    let excl' := excl ++ [i]
    if 0 < i then excl' ++ [backScan excl' (i - 1)] else excl'
  else if path_parts.getD i [] = [] then excl ++ [i]
  else excl

/-- The full exclusion list computed by the first loop of `sanitize_path`. -/
def computeExcludes (path_parts : List (List Char)) : List Nat :=
  (List.range path_parts.length).foldl (excludeStep path_parts) []

/-- Embeds `sanitize_path` (common.rs lines 89-134): split on `'/'`,
exclude `".."` parts (each cancelling its nearest surviving predecessor)
and empty parts, re-join the survivors each prefixed by `'/'` on top of an
optional preserved leading separator, and strip doubled separators. -/
def sanitize_path (file_path : List Char) (preserve_root_path_sep : Bool) : List Char :=
  let path_parts := splitSlash file_path
  let exclude_indicies := computeExcludes path_parts
  let base : List Char :=
    if preserve_root_path_sep = true ∧ file_path.head? = some '/' then ['/'] else []
  let sanitized_path :=
    (List.range path_parts.length).foldl
      (fun acc i =>
        if i ∈ exclude_indicies then acc else acc ++ '/' :: path_parts.getD i [])
      base
  strip_double_slash sanitized_path

/-- Embeds `safe_path_join` (common.rs lines 145-157): sanitize
`path1 ++ "/" ++ path2` keeping a leading separator, prepend the chroot
directory when the sanitized join does not already start with it, and
strip doubled separators. -/
def safe_path_join (path1 path2 chroot_dir : List Char) : List Char :=
  let joined_path := sanitize_path (path1 ++ '/' :: path2) true
  let joined_path :=
    if chroot_dir <+: joined_path then joined_path
    else chroot_dir ++ '/' :: joined_path
  strip_double_slash joined_path

/-- Embeds `chrooted_path` (common.rs lines 162-164). -/
def chrooted_path (file_path chroot_dir : List Char) : List Char :=
  safe_path_join file_path [] chroot_dir

example : chrooted_path "../../etc/passwd".data "/tmp/x".data = "/tmp/x/etc/passwd".data := by decide
example : chrooted_path "/etc/../../passwd".data "/tmp/foobar".data = "/tmp/foobar/passwd".data := by decide
example : chrooted_path "x".data "//..".data = "/../x".data := by decide
example : chrooted_path "".data "//a".data = "/a/".data := by decide

/-- Helper for `rustParent`: works on the reversed character list and
removes trailing separators and trailing `"."` components, as Rust's
`Components` back-iterator skips them before yielding the last real
component. -/
def trimBackAux : List Char → List Char
  | [] => []
  | '/' :: rest => trimBackAux rest
  | ['.'] => []
  | '.' :: '/' :: rest => trimBackAux rest
  | l => l

/-- Models Rust's `std::path::Path::parent` on unix path strings: strips
the last normalized component together with the separators (and `"."`
components) around it; returns `none` for the root path and the empty
path, and `some "/"` when only the root remains. -/
def rustParent (p : List Char) : Option (List Char) :=
  let t := (trimBackAux p.reverse).reverse
  if t = [] then
    if p = [] ∨ p.head? = some '/' then Option.none else Option.some []
  else
    let rev₁ := t.reverse.dropWhile (fun c => decide (c ≠ '/'))
    let rev₂ := rev₁.dropWhile (fun c => decide (c = '/'))
    if rev₂ = [] then
      if p.head? = some '/' then Option.some ['/'] else Option.some []
    else Option.some rev₂.reverse

example : rustParent "/tmp/x/lnk".data = Option.some "/tmp/x".data := by decide
example : rustParent "/a".data = Option.some "/".data := by decide
example : rustParent "/".data = Option.none := by decide
example : rustParent "a".data = Option.some "".data := by decide

/-- The filesystem actions of `create_symlink` (common.rs lines 367-413):
the path at which the link is created and the target text stored in it
(both after jailing).  The actual `unix::fs::symlink` call receives
exactly these two strings. -/
structure SymlinkTrace where
  symlink_path : List Char
  target_path : List Char
deriving DecidableEq

/-- Embeds `create_symlink` (common.rs lines 367-413): the symlink path is
jailed with `chrooted_path`; an absolute target is independently jailed,
while a relative target is joined to the jailed symlink's parent directory
via `safe_path_join` (falling back to `"/"` when there is no parent). -/
def create_symlink (symlink target chroot : List Char) : SymlinkTrace :=
  let safe_symlink := chrooted_path symlink chroot
  if target.head? = some '/' then
    { symlink_path := safe_symlink, target_path := chrooted_path target chroot }
  else
    let relative_dir : List Char :=
      match rustParent safe_symlink with
      | Option.none => ['/']
      | Option.some parent_dir => parent_dir
    { symlink_path := safe_symlink, target_path := safe_path_join relative_dir target chroot }

/-- The filesystem access of `append_to_file` (common.rs lines 275-304):
the path whose metadata is checked by `is_symlink`, and the path actually
passed to `OpenOptions::open` for appending.  In the source the symlink
check receives `safe_file_path` (line 278) but the `open` call on line 282
receives the raw `file_path` argument. -/
structure AppendToFileTrace where
  symlink_checked_path : List Char
  opened_path : List Char
deriving DecidableEq

/-- Embeds the path handling of `append_to_file` (common.rs lines 275-304). -/
def append_to_file (file_path : List Char) (chroot_dir : List Char) : AppendToFileTrace :=
  let safe_file_path := chrooted_path file_path chroot_dir
  { symlink_checked_path := safe_file_path, opened_path := file_path }

/-- The filesystem access of `make_executable` (common.rs lines 329-361):
the path whose metadata (current mode) is read, and the path actually
passed to `fs::set_permissions`.  In the source the metadata query on line
335 receives `safe_file_path` but the `set_permissions` call on line 346
receives the raw `file_path` argument. -/
structure MakeExecutableTrace where
  metadata_path : List Char
  set_permissions_path : List Char
deriving DecidableEq

/-- Embeds the path handling of `make_executable` (common.rs lines 329-361). -/
def make_executable (file_path chroot : List Char) : MakeExecutableTrace :=
  let safe_file_path := chrooted_path file_path chroot
  { metadata_path := safe_file_path, set_permissions_path := file_path }

/-- `const UNIX_EXEC_FLAG: u32 = 1` (common.rs line 331); this is the
execute-by-others permission bit (octal 0o001). -/
def UNIX_EXEC_FLAG : Nat := 1

/-- The mode computed by `make_executable` (common.rs line 344):
`permissions.mode() | UNIX_EXEC_FLAG`. -/
def make_executable_new_mode (mode : Nat) : Nat := mode ||| UNIX_EXEC_FLAG

/-- The filesystem action of `create_file` (common.rs lines 169-203): the
jailed path written to, and the bytes written — `data.get(start..start+size)`
returns the slice when `start + size ≤ data.len()` and `None` (a failed
creation, nothing written) otherwise. -/
structure CreateFileTrace where
  written_path : List Char
  written_bytes : Option (List Nat)
deriving DecidableEq

/-- Embeds `create_file` (common.rs lines 169-203); file bytes are
modelled as `List Nat`. -/
def create_file (file_path : List Char) (data : List Nat) (start size : Nat)
    (chroot : List Char) : CreateFileTrace :=
  let safe_file_path := chrooted_path file_path chroot
  { written_path := safe_file_path,
    written_bytes :=
      if start + size ≤ data.length then Option.some ((data.drop start).take size)
      else Option.none }

/-- Rust `format!("{:X}", n)`: uppercase hexadecimal without prefix. -/
def format_hex_upper (n : Nat) : List Char := (Nat.toDigits 16 n).map Char.toUpper

/-- The output directory computed by `create_output_directory`
(common.rs lines 707-725): `<file_path>.extracted/<offset in uppercase hex>`. -/
def output_directory_path (file_path : List Char) (offset : Nat) : List Char :=
  file_path ++ (".extracted").data ++ '/' :: format_hex_upper offset

/-- The carved file path computed by `spawn` (common.rs lines 574-581):
`<output_directory>/<signature.name>_<offset in uppercase hex>.<extension>`. -/
def carved_file_path (output_directory name : List Char) (offset : Nat)
    (extension : List Char) : List Char :=
  output_directory ++ '/' :: (name ++ '_' :: (format_hex_upper offset ++ '.' :: extension))

/-- Embeds `ExtractionResult` (common.rs lines 54-68); the field defaults
are Rust's `Default::default()`. -/
structure ExtractionResult where
  size : Option Nat := Option.none
  success : Bool := false
  extractor : List Char := []
  do_not_recurse : Bool := false
  output_directory : List Char := []
deriving DecidableEq

/-- Embeds the `InternalExtractor` function type (common.rs line 22). -/
abbrev InternalExtractor := List Nat → Nat → Option (List Char) → ExtractionResult

/-- Embeds `ExtractorType` (common.rs lines 24-30). -/
inductive ExtractorType where
  | external (cmd : List Char)
  | internal (func : InternalExtractor)
  | none

/-- Embeds `Extractor` (common.rs lines 36-47). -/
structure Extractor where
  utility : ExtractorType := ExtractorType.none
  extension : List Char := []
  arguments : List (List Char) := []
  exit_codes : List Int := []
  do_not_recurse : Bool := false

/-- Embeds the part of `SignatureResult` consumed here (name, offset,
size, preferred extractor). -/
structure SignatureResult where
  name : List Char := []
  offset : Nat := 0
  size : Nat := 0
  preferred_extractor : Option Extractor := Option.none

/-- Outcome of `child.wait()` in `proc_wait` (common.rs line 660):
either the wait call itself fails (`Err` branch, line 662), or the child
terminated and `status.code()` is `exited code` — `code = none` models
termination by signal, where no exit code is available. -/
inductive WaitOutcome where
  | wait_err
  | exited (code : Option Int)
deriving DecidableEq

/-- Observable effects of `proc_wait` (common.rs lines 655-704): the
returned `Result` (`none` models `Err(ExtractionError)`) and whether
`fs::remove_file` was invoked on the carved input file. -/
structure ProcWaitOutcome where
  res : Option ExtractionResult
  carved_file_deleted : Bool
deriving DecidableEq

/-- Embeds `proc_wait` (common.rs lines 655-704): on a wait error it
returns `Err` having deleted nothing; otherwise it deletes the carved
file, then grants success exactly for exit code 0 or a code listed in
`exit_codes`, and failure for signal termination (no code). -/
def proc_wait (exit_codes : List Int) (wait_result : WaitOutcome) : ProcWaitOutcome :=
  match wait_result with
  | WaitOutcome.wait_err => { res := Option.none, carved_file_deleted := false }
  | WaitOutcome.exited status_code =>
    let extraction_success : Bool :=
      match status_code with
      | Option.none => false
      | Option.some code => decide (code = 0) || exit_codes.contains code
    { res := Option.some { success := extraction_success }, carved_file_deleted := true }

/-- Link-unaware metadata of one directory entry (`fs::symlink_metadata`). -/
structure Md where
  is_file : Bool
  len : Nat
deriving DecidableEq

/-- One entry yielded by the `WalkDir` iteration: either an enumeration
error (skipped by the source), or a path together with its
`symlink_metadata` result (`none` models a metadata error, also skipped). -/
inductive WalkEntry where
  | err
  | ok (path : List Char) (md : Option Md)
deriving DecidableEq

/-- Embeds `was_something_extracted` (common.rs lines 731-763) over the
recorded walk of the output directory: true iff some entry other than the
output directory itself has readable metadata with `len() > 0` — the
entry's file type is *not* inspected. -/
def was_something_extracted (output_directory : List Char) (walk : List WalkEntry) : Bool :=
  walk.any fun entry =>
    match entry with
    | WalkEntry.err => false
    | WalkEntry.ok path md =>
      if path = output_directory then false
      else
        match md with
        | Option.none => false
        | Option.some m => decide (0 < m.len)

/-- Embeds `get_extracted_files` (common.rs lines 418-441) over the
recorded walk: the paths of entries whose metadata shows a regular file
(`md.is_file()`) of non-zero length. -/
def get_extracted_files (walk : List WalkEntry) : List (List Char) :=
  walk.filterMap fun entry =>
    match entry with
    | WalkEntry.err => Option.none
    | WalkEntry.ok path md =>
      match md with
      | Option.none => Option.none
      | Option.some m =>
        if m.is_file = true ∧ 0 < m.len then Option.some path else Option.none

/-- The carving step of `spawn` (common.rs lines 590-613): a whole-buffer
match is symlinked, anything else is copied with `create_file`; both use
the root directory `"/"` as the chroot. -/
inductive CarveAction where
  | symlinked (trace : SymlinkTrace)
  | copied (trace : CreateFileTrace)
deriving DecidableEq

/-- Embeds the carve-or-symlink decision of `spawn` (common.rs lines
573-613). -/
def spawn_carve (file_data : List Nat) (file_path output_directory : List Char)
    (signature : SignatureResult) (extractor : Extractor) : CarveAction :=
  let root_dir : List Char := ['/']
  let carved_file :=
    carved_file_path output_directory signature.name signature.offset extractor.extension
  if signature.offset = 0 ∧ signature.size = file_data.length then
    CarveAction.symlinked (create_symlink carved_file file_path root_dir)
  else
    CarveAction.copied (create_file carved_file file_data signature.offset signature.size root_dir)

/-- Oracle for the filesystem / OS effects of one `execute` invocation:
whether the output directory creation succeeds, whether the carved
file/symlink creation succeeds (beyond the in-bounds check modelled
explicitly), whether `Command::spawn` succeeds, the outcome of waiting for
the child, and the walk of the output directory as observed after the
extractor has run (and the carved file was deleted). -/
structure ExecEnv where
  mkdir_ok : Bool
  carve_ok : Bool
  spawn_ok : Bool
  wait_outcome : WaitOutcome
  walk : List WalkEntry

/-- Whether `spawn` (common.rs lines 554-649) returns `Ok`: the carve (or
symlink) must succeed — for a copy this requires the byte range to be in
bounds — and then the process spawn must succeed. -/
def spawn_succeeds (env : ExecEnv) (file_data : List Nat) (file_path output_directory : List Char)
    (signature : SignatureResult) (extractor : Extractor) : Bool :=
  (match spawn_carve file_data file_path output_directory signature extractor with
   | CarveAction.symlinked _ => env.carve_ok
   | CarveAction.copied trace => trace.written_bytes.isSome && env.carve_ok)
  && env.spawn_ok

/-- Observable outcome of one `execute` invocation (common.rs lines
446-549): the returned `ExtractionResult`, whether the call panicked
(`ExtractorType::None`, line 480), whether the output directory was
created, and whether `fs::remove_dir_all` was invoked on it (line 539). -/
structure ExecOutcome where
  result : ExtractionResult
  panicked : Bool
  dir_created : Bool
  removed_output_dir : Bool
deriving DecidableEq

/-- The common tail of `execute` (common.rs lines 523-545): overwrite
`output_directory` and `do_not_recurse` from the chosen extractor
definition, downgrade a reported success when nothing was extracted, and
remove the output directory when the final result is a failure. -/
def finish_result (output_directory : List Char) (extractor_definition : Extractor)
    (result : ExtractionResult) (env : ExecEnv) : ExecOutcome :=
  let result := { result with
    output_directory := output_directory,
    do_not_recurse := extractor_definition.do_not_recurse }
  let result :=
    if result.success = true ∧ was_something_extracted result.output_directory env.walk = false
    then { result with success := false }
    else result
  { result := result, panicked := false, dir_created := true,
    removed_output_dir := !result.success }

/-- Embeds `execute` (common.rs lines 446-549).  The `extractor` argument
is the catalog default; a `preferred_extractor` on the signature overrides
it.  `Option.none` for `extractor` is the "no extractor defined" error
path (lines 460-465), which only logs; `ExtractorType.none` as the chosen
utility panics (line 480). -/
def execute (env : ExecEnv) (file_data : List Nat) (file_path : List Char)
    (signature : SignatureResult) (extractor : Option Extractor) : ExecOutcome :=
  if env.mkdir_ok = true then
    let output_directory := output_directory_path file_path signature.offset
    match extractor with
    | Option.none =>
      { result := {}, panicked := false, dir_created := true, removed_output_dir := true }
    | Option.some default_extractor =>
      let extractor_definition :=
        match signature.preferred_extractor with
        | Option.some preferred_extractor => preferred_extractor
        | Option.none => default_extractor
      match extractor_definition.utility with
      | ExtractorType.none =>
        { result := {}, panicked := true, dir_created := true, removed_output_dir := false }
      | ExtractorType.internal func =>
        let result := func file_data signature.offset (Option.some output_directory)
        finish_result output_directory extractor_definition
          { result with extractor := signature.name ++ ("_built_in").data } env
      | ExtractorType.external cmd =>
        if spawn_succeeds env file_data file_path output_directory signature extractor_definition
            = true then
          match (proc_wait extractor_definition.exit_codes env.wait_outcome).res with
          | Option.none => finish_result output_directory extractor_definition {} env
          | Option.some ext_result =>
            finish_result output_directory extractor_definition
              { ext_result with extractor := cmd } env
        else finish_result output_directory extractor_definition {} env
  else
    { result := {}, panicked := false, dir_created := false, removed_output_dir := false }

/-! ### Basic lemmas about `splitSlash`, `strip_double_slash` and `hasDS` -/

theorem splitSlash_ne_nil : ∀ l : List Char, splitSlash l ≠ [] := by
  intro l
  cases l with
  | nil => simp [splitSlash]
  | cons c rest =>
    by_cases hc : c = '/'
    · simp [splitSlash, hc]
    · simp only [splitSlash, if_neg hc]
      cases splitSlash rest <;> simp

theorem splitSlash_sep (rest : List Char) :
    splitSlash ('/' :: rest) = [] :: splitSlash rest := by
  simp [splitSlash]

theorem splitSlash_cons_ne {c : Char} (hc : ¬ c = '/') (rest : List Char)
    {s : List Char} {ss : List (List Char)} (h : splitSlash rest = s :: ss) :
    splitSlash (c :: rest) = (c :: s) :: ss := by
  simp only [splitSlash, if_neg hc, h]

theorem sds_double (rest : List Char) :
    strip_double_slash ('/' :: '/' :: rest) = '/' :: strip_double_slash rest := by
  simp [strip_double_slash]

theorem sds_cons {a b : Char} (h : ¬ (a = '/' ∧ b = '/')) (rest : List Char) :
    strip_double_slash (a :: b :: rest) = a :: strip_double_slash (b :: rest) := by
  simp only [strip_double_slash, if_neg h]

theorem hasDS_cons_false {a b : Char} {rest : List Char} (h : hasDS (a :: b :: rest) = false) :
    ¬ (a = '/' ∧ b = '/') ∧ hasDS (b :: rest) = false := by
  simp only [hasDS, Bool.or_eq_false_iff, Bool.and_eq_false_iff, decide_eq_false_iff_not] at h
  obtain ⟨h1, h2⟩ := h
  exact ⟨fun hab => by rcases h1 with h1 | h1 <;> [exact h1 hab.1; exact h1 hab.2], h2⟩

theorem hasDS_cons_of {c : Char} {t : List Char}
    (h : ¬ (c = '/' ∧ t.head? = some '/')) (ht : hasDS t = false) :
    hasDS (c :: t) = false := by
  cases t with
  | nil => rfl
  | cons d w =>
    simp only [List.head?] at h
    simp only [hasDS, Bool.or_eq_false_iff, Bool.and_eq_false_iff, decide_eq_false_iff_not]
    refine ⟨?_, ht⟩
    by_cases hc : c = '/'
    · right; intro hd; exact h ⟨hc, by rw [hd]⟩
    · left; exact hc

theorem strip_eq_self : ∀ l : List Char, hasDS l = false → strip_double_slash l = l := by
  intro l
  induction l with
  | nil => intro _; rfl
  | cons a t ih =>
    cases t with
    | nil => intro _; rfl
    | cons b rest =>
      intro h
      obtain ⟨hab, ht⟩ := hasDS_cons_false h
      rw [sds_cons hab, ih ht]

theorem strip_head : ∀ l : List Char, (strip_double_slash l).head? = l.head? := by
  intro l
  match l with
  | [] => rfl
  | [c] => rfl
  | a :: b :: rest =>
    by_cases h : a = '/' ∧ b = '/'
    · rw [h.1, h.2, sds_double]; rfl
    · rw [sds_cons h]; rfl

theorem cons_prefix_of {a : Char} {l₁ l₂ : List Char} (h : l₁ <+: l₂) :
    a :: l₁ <+: a :: l₂ := by
  obtain ⟨t, ht⟩ := h
  exact ⟨t, by simp [← ht]⟩

theorem prefix_strip : ∀ c : List Char, hasDS c = false →
    ∀ s : List Char, c <+: strip_double_slash (c ++ '/' :: s) := by
  intro c
  induction c with
  | nil => intro _ s; exact ⟨_, rfl⟩
  | cons x c' ih =>
    intro h s
    cases c' with
    | nil =>
      by_cases hx : x = '/'
      · subst hx
        rw [List.cons_append, List.nil_append, sds_double]
        exact ⟨_, rfl⟩
      · rw [List.cons_append, List.nil_append, sds_cons (fun hc => hx hc.1)]
        exact ⟨_, rfl⟩
    | cons y c'' =>
      obtain ⟨hxy, ht⟩ := hasDS_cons_false h
      show x :: y :: c'' <+: strip_double_slash (x :: y :: (c'' ++ '/' :: s))
      rw [sds_cons hxy]
      exact cons_prefix_of (ih ht s)

/-- Splitting after stripping doubled separators: the first segment is
unchanged and the remaining segments form a sublist of the original ones. -/
theorem splitSlash_strip : ∀ l : List Char,
    ∃ h s s', splitSlash (strip_double_slash l) = h :: s ∧
      splitSlash l = h :: s' ∧ List.Sublist s s' := by
  intro l
  induction l using strip_double_slash.induct with
  | case1 =>
    exact ⟨[], [], [], rfl, rfl, List.Sublist.refl _⟩
  | case2 c =>
    obtain ⟨h, t, e⟩ := List.exists_cons_of_ne_nil (splitSlash_ne_nil [c])
    exact ⟨h, t, t, by rw [strip_double_slash]; exact e, e, List.Sublist.refl _⟩
  | case3 a b rest hab ih =>
    obtain ⟨h', s₁, s₁', e₁, e₂, hsub⟩ := ih
    rw [hab.1, hab.2] at *
    refine ⟨[], h' :: s₁, [] :: h' :: s₁', ?_, ?_, ?_⟩
    · rw [sds_double, splitSlash_sep, e₁]
    · rw [splitSlash_sep, splitSlash_sep, e₂]
    · exact (hsub.cons₂ h').cons []
  | case4 a b rest hab ih =>
    obtain ⟨h', s₁, s₁', e₁, e₂, hsub⟩ := ih
    by_cases ha : a = '/'
    · subst ha
      refine ⟨[], h' :: s₁, h' :: s₁', ?_, ?_, hsub.cons₂ h'⟩
      · rw [sds_cons hab, splitSlash_sep, e₁]
      · rw [splitSlash_sep, e₂]
    · refine ⟨a :: h', s₁, s₁', ?_, ?_, hsub⟩
      · rw [sds_cons hab, splitSlash_cons_ne ha _ e₁]
      · rw [splitSlash_cons_ne ha _ e₂]

theorem mem_splitSlash_strip {a : List Char} {l : List Char}
    (h : a ∈ splitSlash (strip_double_slash l)) : a ∈ splitSlash l := by
  obtain ⟨h', s, s', e₁, e₂, hsub⟩ := splitSlash_strip l
  rw [e₁] at h
  rw [e₂]
  rcases h with _ | h
  · exact List.mem_cons_self _ _
  · exact List.mem_cons_of_mem _ (hsub.subset (by assumption))

theorem splitSlash_append : ∀ a b : List Char,
    splitSlash (a ++ '/' :: b) = splitSlash a ++ splitSlash b := by
  intro a b
  induction a with
  | nil => rw [List.nil_append, splitSlash_sep]; rfl
  | cons c a' ih =>
    by_cases hc : c = '/'
    · subst hc
      rw [List.cons_append, splitSlash_sep, splitSlash_sep, ih, List.cons_append]
    · obtain ⟨s, ss, e⟩ := List.exists_cons_of_ne_nil (splitSlash_ne_nil a')
      rw [List.cons_append, splitSlash_cons_ne hc _ (by rw [ih, e]; rfl),
        splitSlash_cons_ne hc _ e, List.cons_append]
      rfl

theorem mem_splitSlash_no_slash : ∀ l : List Char, ∀ p ∈ splitSlash l, '/' ∉ p := by
  intro l
  induction l with
  | nil =>
    intro p hp
    simp only [splitSlash] at hp
    simp at hp
    simp [hp]
  | cons c rest ih =>
    intro p hp
    by_cases hc : c = '/'
    · subst hc
      rw [splitSlash_sep] at hp
      rcases hp with _ | hp
      · simp
      · exact ih p (by assumption)
    · obtain ⟨s, ss, e⟩ := List.exists_cons_of_ne_nil (splitSlash_ne_nil rest)
      rw [splitSlash_cons_ne hc _ e] at hp
      rcases hp with _ | hp
      · intro hmem
        rcases hmem with _ | hmem
        · exact hc rfl
        · exact ih s (by rw [e]; exact List.mem_cons_self _ _) (by assumption)
      · exact ih p (by rw [e]; exact List.mem_cons_of_mem _ (by assumption))

/-! ### The exclusion loop of `sanitize_path` -/

theorem foldl_if_exclude (excl : List Nat) (parts : List (List Char)) :
    ∀ (l : List Nat) (acc : List Char),
      l.foldl (fun acc i => if i ∈ excl then acc else acc ++ '/' :: parts.getD i []) acc
        = acc ++ ((l.filter (fun i => decide (i ∉ excl))).map
            (fun i => '/' :: parts.getD i [])).join := by
  intro l
  induction l with
  | nil => intro acc; simp
  | cons i l' ih =>
    intro acc
    by_cases hi : i ∈ excl
    · simp only [List.foldl_cons, if_pos hi, List.filter_cons]
      rw [ih]
      simp [hi]
    · simp only [List.foldl_cons, if_neg hi, List.filter_cons]
      rw [ih]
      simp [hi, List.append_assoc]

theorem mem_excludeStep_self {parts : List (List Char)} {excl : List Nat} {i : Nat}
    (h : parts.getD i [] = ['.', '.'] ∨ parts.getD i [] = []) :
    i ∈ excludeStep parts excl i := by
  unfold excludeStep
  rcases h with h | h
  · rw [if_pos h]
    by_cases hi : 0 < i
    · rw [if_pos hi]; simp
    · rw [if_neg hi]; simp
  · rw [h]
    simp

theorem mem_excludeStep_mono {parts : List (List Char)} {excl : List Nat} {i a : Nat}
    (h : a ∈ excl) : a ∈ excludeStep parts excl i := by
  unfold excludeStep
  split
  · split
    · exact List.mem_append_left _ (List.mem_append_left _ h)
    · exact List.mem_append_left _ h
  · split
    · exact List.mem_append_left _ h
    · exact h

theorem mem_foldl_excludeStep (parts : List (List Char)) :
    ∀ (l : List Nat) (acc : List Nat) (a : Nat), a ∈ acc →
      a ∈ l.foldl (excludeStep parts) acc := by
  intro l
  induction l with
  | nil => intro acc a h; exact h
  | cons i l' ih => intro acc a h; exact ih _ _ (mem_excludeStep_mono h)

theorem mem_computeExcludes {parts : List (List Char)} {i : Nat}
    (hi : i < parts.length)
    (h : parts.getD i [] = ['.', '.'] ∨ parts.getD i [] = []) :
    i ∈ computeExcludes parts := by
  unfold computeExcludes
  have key : ∀ (l : List Nat) (acc : List Nat), i ∈ l →
      i ∈ l.foldl (excludeStep parts) acc := by
    intro l
    induction l with
    | nil => intro acc hmem; cases hmem
    | cons j l' ih =>
      intro acc hmem
      rcases List.mem_cons.mp hmem with rfl | hmem
      · exact mem_foldl_excludeStep parts l' _ _ (mem_excludeStep_self h)
      · exact ih _ hmem
  exact key _ _ (List.mem_range.mpr hi)

/-! ### Shape of `sanitize_path` output -/

theorem sanitize_decomp (file_path : List Char) (b : Bool) :
    ∃ (base : List Char) (ps : List (List Char)),
      (base = [] ∨ base = ['/']) ∧
      (∀ p ∈ ps, p ≠ [] ∧ p ≠ ['.', '.'] ∧ '/' ∉ p) ∧
      sanitize_path file_path b
        = strip_double_slash (base ++ (ps.map (fun p => '/' :: p)).join) := by
  refine ⟨if b = true ∧ file_path.head? = some '/' then ['/'] else [],
    ((List.range (splitSlash file_path).length).filter
        (fun i => decide (i ∉ computeExcludes (splitSlash file_path)))).map
      (fun i => (splitSlash file_path).getD i []), ?_, ?_, ?_⟩
  · by_cases hb : b = true ∧ file_path.head? = some '/'
    · right; rw [if_pos hb]
    · left; rw [if_neg hb]
  · intro p hp
    obtain ⟨i, hi, rfl⟩ := List.mem_map.mp hp
    have hmem := List.mem_filter.mp hi
    have hirange : i < (splitSlash file_path).length := List.mem_range.mp hmem.1
    have hnex : i ∉ computeExcludes (splitSlash file_path) := by simpa using hmem.2
    have hmemparts : (splitSlash file_path).getD i [] ∈ splitSlash file_path := by
      rw [List.getD_eq_getElem _ _ hirange]
      exact List.getElem_mem _
    refine ⟨?_, ?_, mem_splitSlash_no_slash file_path _ hmemparts⟩
    · intro he; exact hnex (mem_computeExcludes hirange (Or.inr he))
    · intro he; exact hnex (mem_computeExcludes hirange (Or.inl he))
  · show sanitize_path file_path b = _
    simp only [sanitize_path]
    rw [foldl_if_exclude, List.map_map]
    rfl

theorem hasDS_append_of {p v : List Char} (hp : '/' ∉ p) (hv : hasDS v = false) :
    hasDS (p ++ v) = false := by
  induction p with
  | nil => exact hv
  | cons c p' ih =>
    have hc : ¬ c = '/' := fun h => hp (by rw [← h]; exact List.mem_cons_self _ _)
    exact hasDS_cons_of (fun h => hc h.1) (ih (fun h => hp (List.mem_cons_of_mem _ h)))

theorem hasDS_psJoin : ∀ ps : List (List Char),
    (∀ p ∈ ps, p ≠ [] ∧ '/' ∉ p) →
    hasDS ((ps.map (fun p => '/' :: p)).join) = false := by
  intro ps
  induction ps with
  | nil => intro _; rfl
  | cons p rest ih =>
    intro h
    have hp := h p (List.mem_cons_self _ _)
    have hrest := ih (fun q hq => h q (List.mem_cons_of_mem _ hq))
    show hasDS (('/' :: p) ++ (rest.map (fun p => '/' :: p)).join) = false
    rw [List.cons_append]
    refine hasDS_cons_of ?_ (hasDS_append_of hp.2 hrest)
    intro hcontra
    obtain ⟨hne, hnoslash⟩ := hp
    cases p with
    | nil => exact hne rfl
    | cons c p' =>
      have hc : c = '/' := by
        have h2 := hcontra.2
        rw [List.cons_append] at h2
        simpa using h2
      subst hc
      exact hnoslash (List.mem_cons_self _ _)

theorem splitSlash_append_left : ∀ (p v : List Char), '/' ∉ p →
    ∃ h t, splitSlash v = h :: t ∧ splitSlash (p ++ v) = (p ++ h) :: t := by
  intro p
  induction p with
  | nil =>
    intro v _
    obtain ⟨h, t, e⟩ := List.exists_cons_of_ne_nil (splitSlash_ne_nil v)
    exact ⟨h, t, e, by rw [List.nil_append, e]; rfl⟩
  | cons c p' ih =>
    intro v hp
    have hc : ¬ c = '/' := fun h => hp (by rw [← h]; exact List.mem_cons_self _ _)
    obtain ⟨h, t, e, e2⟩ := ih v (fun hm => hp (List.mem_cons_of_mem _ hm))
    exact ⟨h, t, e, by rw [List.cons_append, splitSlash_cons_ne hc _ e2]; rfl⟩

theorem splitSlash_psJoin : ∀ ps : List (List Char), (∀ p ∈ ps, '/' ∉ p) →
    splitSlash ((ps.map (fun p => '/' :: p)).join) = [] :: ps := by
  intro ps
  induction ps with
  | nil => intro _; rfl
  | cons p rest ih =>
    intro h
    have hp := h p (List.mem_cons_self _ _)
    have hrest := ih (fun q hq => h q (List.mem_cons_of_mem _ hq))
    show splitSlash (('/' :: p) ++ (rest.map (fun p => '/' :: p)).join) = _
    rw [List.cons_append, splitSlash_sep]
    obtain ⟨hh, tt, e, e2⟩ := splitSlash_append_left p _ hp
    rw [hrest] at e
    injection e with h1 h2
    subst h1; subst h2
    rw [e2, List.append_nil]

theorem sanitize_noDS (file_path : List Char) (b : Bool) :
    hasDS (sanitize_path file_path b) = false := by
  obtain ⟨base, ps, hbase, hps, heq⟩ := sanitize_decomp file_path b
  rw [heq]
  have hjoin : hasDS ((ps.map (fun p => '/' :: p)).join) = false :=
    hasDS_psJoin ps (fun p hp => ⟨(hps p hp).1, (hps p hp).2.2⟩)
  rcases hbase with rfl | rfl
  · rw [List.nil_append, strip_eq_self _ hjoin]
    exact hjoin
  · cases ps with
    | nil => rfl
    | cons p rest =>
      have hp := hps p (List.mem_cons_self _ _)
      have hjr : hasDS ((rest.map (fun p => '/' :: p)).join) = false :=
        hasDS_psJoin rest (fun q hq =>
          ⟨(hps q (List.mem_cons_of_mem _ hq)).1, (hps q (List.mem_cons_of_mem _ hq)).2.2⟩)
      have hpj : hasDS (p ++ (rest.map (fun p => '/' :: p)).join) = false :=
        hasDS_append_of hp.2.2 hjr
      show hasDS (strip_double_slash
        ('/' :: '/' :: (p ++ (rest.map (fun p => '/' :: p)).join))) = false
      rw [sds_double, strip_eq_self _ hpj]
      refine hasDS_cons_of ?_ hpj
      intro hcontra
      obtain ⟨hne, -, hnoslash⟩ := hp
      cases p with
      | nil => exact hne rfl
      | cons c p'' =>
        have hc : c = '/' := by
          have h2 := hcontra.2
          rw [List.cons_append] at h2
          simpa using h2
        subst hc
        exact hnoslash (List.mem_cons_self _ _)

theorem sanitize_noDotDot (file_path : List Char) (b : Bool) :
    ['.', '.'] ∉ splitSlash (sanitize_path file_path b) := by
  obtain ⟨base, ps, hbase, hps, heq⟩ := sanitize_decomp file_path b
  rw [heq]
  intro hmem
  have hmem' := mem_splitSlash_strip hmem
  rcases hbase with rfl | rfl
  · rw [List.nil_append, splitSlash_psJoin ps (fun p hp => (hps p hp).2.2)] at hmem'
    rcases List.mem_cons.mp hmem' with h | h
    · exact absurd h (by decide)
    · exact (hps _ h).2.1 rfl
  · rw [show (['/'] ++ (ps.map (fun p => '/' :: p)).join)
        = '/' :: (ps.map (fun p => '/' :: p)).join from rfl,
      splitSlash_sep, splitSlash_psJoin ps (fun p hp => (hps p hp).2.2)] at hmem'
    rcases List.mem_cons.mp hmem' with h | h
    · exact absurd h (by decide)
    · rcases List.mem_cons.mp h with h | h
      · exact absurd h (by decide)
      · exact (hps _ h).2.1 rfl

/-- Core containment property of `safe_path_join`: for any two path
fragments, the join lies inside a chroot directory that has no doubled
separator and no `".."` segment — it starts with the chroot and the joined
path has no `".."` segment. -/
theorem safe_path_join_confined (path1 path2 chroot_dir : List Char)
    (h1 : hasDS chroot_dir = false)
    (h2 : ['.', '.'] ∉ splitSlash chroot_dir) :
    chroot_dir <+: safe_path_join path1 path2 chroot_dir ∧
      ['.', '.'] ∉ splitSlash (safe_path_join path1 path2 chroot_dir) := by
  simp only [safe_path_join]
  by_cases hpre : chroot_dir <+: sanitize_path (path1 ++ '/' :: path2) true
  · rw [if_pos hpre, strip_eq_self _ (sanitize_noDS _ _)]
    exact ⟨hpre, sanitize_noDotDot _ _⟩
  · rw [if_neg hpre]
    constructor
    · exact prefix_strip chroot_dir h1 _
    · intro hmem
      have hmem' := mem_splitSlash_strip hmem
      rw [splitSlash_append] at hmem'
      rcases List.mem_append.mp hmem' with h | h
      · exact h2 h
      · exact sanitize_noDotDot _ _ h

/-! ### Structural lemmas about `finish_result` and `execute` -/

theorem finish_result_removed_eq (od : List Char) (ed : Extractor)
    (r : ExtractionResult) (env : ExecEnv) :
    (finish_result od ed r env).removed_output_dir
      = !(finish_result od ed r env).result.success := rfl

theorem finish_result_success {od : List Char} {ed : Extractor}
    {r : ExtractionResult} {env : ExecEnv}
    (h : (finish_result od ed r env).result.success = true) :
    was_something_extracted od env.walk = true := by
  simp only [finish_result] at h
  split at h
  · exact Bool.noConfusion h
  · next hcond =>
    rcases Bool.eq_false_or_eq_true (was_something_extracted od env.walk) with hw | hw
    · exact hw
    · exact absurd ⟨h, hw⟩ hcond

/-- Every `execute` invocation either fails before creating the output
directory, handles a missing extractor, panics on `ExtractorType.none`,
or ends in the common `finish_result` tail. -/
theorem execute_shape (env : ExecEnv) (file_data : List Nat) (file_path : List Char)
    (signature : SignatureResult) (extractor : Option Extractor) :
    execute env file_data file_path signature extractor
        = { result := {}, panicked := false, dir_created := false, removed_output_dir := false }
      ∨ execute env file_data file_path signature extractor
        = { result := {}, panicked := false, dir_created := true, removed_output_dir := true }
      ∨ execute env file_data file_path signature extractor
        = { result := {}, panicked := true, dir_created := true, removed_output_dir := false }
      ∨ ∃ extractor_definition r,
          execute env file_data file_path signature extractor
            = finish_result (output_directory_path file_path signature.offset)
                extractor_definition r env := by
  simp only [execute]
  split
  · split
    · exact Or.inr (Or.inl rfl)
    · split
      · exact Or.inr (Or.inr (Or.inl rfl))
      · exact Or.inr (Or.inr (Or.inr ⟨_, _, rfl⟩))
      · split
        · split
          · exact Or.inr (Or.inr (Or.inr ⟨_, _, rfl⟩))
          · exact Or.inr (Or.inr (Or.inr ⟨_, _, rfl⟩))
        · exact Or.inr (Or.inr (Or.inr ⟨_, _, rfl⟩))
  · exact Or.inl rfl

/-! ### Claims -/

/-- C1 (amended): for every path string `p` and every chroot directory
string `c` that contains no doubled separator `"//"` and no `".."`
segment, `chrooted_path p c` (that is, `safe_path_join p "" c`) lies
inside the root `c`: it starts with `c` and contains no `".."` segment —
even when `p` is absolute, contains repeated `".."` components, empty
segments, or doubled separators.  Without the two conditions on `c` the
claim fails (see the counterexample). -/
theorem c1_chrooted_path_confined (p c : List Char)
    (h1 : hasDS c = false) (h2 : ['.', '.'] ∉ splitSlash c) :
    c <+: chrooted_path p c ∧ ['.', '.'] ∉ splitSlash (chrooted_path p c) :=
  safe_path_join_confined p [] c h1 h2

/-- C1 witness: the confinement theorem applied at the spec's own example
`p = "../../etc/passwd"`, `c = "/tmp/x"`. -/
theorem c1_witness :
    "/tmp/x".data <+: chrooted_path "../../etc/passwd".data "/tmp/x".data ∧
      ['.', '.'] ∉ splitSlash (chrooted_path "../../etc/passwd".data "/tmp/x".data) :=
  c1_chrooted_path_confined "../../etc/passwd".data "/tmp/x".data (by decide) (by decide)

/-- C1 counterexample: for the chroot string `c = "//.."` and the path
`p = "x"`, `chrooted_path p c` evaluates to `"/../x"`, which neither
starts with `c` nor is free of `".."` segments — so the claim is false for
arbitrary chroot strings. -/
theorem c1_counterexample :
    ¬ ("//..".data <+: chrooted_path "x".data "//..".data ∧
      ['.', '.'] ∉ splitSlash (chrooted_path "x".data "//..".data)) := by
  decide

/-- C2 (code bug evidence): at `file_path = "../../etc/passwd"`,
`chroot = "/tmp/x"`, `append_to_file` passes the raw caller-supplied path
to `OpenOptions::open` (common.rs line 282) and `make_executable` passes
the raw path to `fs::set_permissions` (line 346), although both computed
the jailed path (and use it for the symlink check, the metadata query and
all log messages).  The mutated path differs from the jailed path. -/
theorem c2_raw_path_mutation :
    (append_to_file "../../etc/passwd".data "/tmp/x".data).opened_path
        = "../../etc/passwd".data ∧
      (append_to_file "../../etc/passwd".data "/tmp/x".data).opened_path
        ≠ (append_to_file "../../etc/passwd".data "/tmp/x".data).symlink_checked_path ∧
      (make_executable "../../etc/passwd".data "/tmp/x".data).set_permissions_path
        = "../../etc/passwd".data ∧
      (make_executable "../../etc/passwd".data "/tmp/x".data).set_permissions_path
        ≠ chrooted_path "../../etc/passwd".data "/tmp/x".data := by
  decide

/-- C3 (amended): `execute` grants `success = true` only if the walk of
the output directory contains some entry, other than the output directory
itself, whose link-unaware metadata is readable and reports a length
greater than zero — the entry need not be a regular file.  An extractor
that reports success without producing such an entry is downgraded to
`success = false`. -/
theorem c3_execute_success_requires_nonempty_entry
    (env : ExecEnv) (file_data : List Nat) (file_path : List Char)
    (signature : SignatureResult) (extractor : Option Extractor)
    (h : (execute env file_data file_path signature extractor).result.success = true) :
    was_something_extracted (output_directory_path file_path signature.offset) env.walk
      = true := by
  rcases execute_shape env file_data file_path signature extractor with he | he | he | ⟨ed, r, he⟩
  · rw [he] at h; exact absurd h (by decide)
  · rw [he] at h; exact absurd h (by decide)
  · rw [he] at h; exact absurd h (by decide)
  · rw [he] at h; exact finish_result_success h

/-- C3 witness: a successful internal extraction whose output walk shows a
non-empty regular file. -/
theorem c3_witness :
    (execute
        { mkdir_ok := true, carve_ok := true, spawn_ok := true,
          wait_outcome := WaitOutcome.exited (Option.some 0),
          walk := [WalkEntry.ok "f.extracted/0/a.bin".data
            (Option.some { is_file := true, len := 5 })] }
        [] "f".data { name := "sig".data }
        (Option.some { utility := ExtractorType.internal (fun _ _ _ => { success := true }) })).result.success = true ∧
      was_something_extracted (output_directory_path "f".data 0)
        [WalkEntry.ok "f.extracted/0/a.bin".data
          (Option.some { is_file := true, len := 5 })] = true :=
  ⟨by decide,
   c3_execute_success_requires_nonempty_entry
     { mkdir_ok := true, carve_ok := true, spawn_ok := true,
       wait_outcome := WaitOutcome.exited (Option.some 0),
       walk := [WalkEntry.ok "f.extracted/0/a.bin".data
         (Option.some { is_file := true, len := 5 })] }
     [] "f".data { name := "sig".data }
     (Option.some { utility := ExtractorType.internal (fun _ _ _ => { success := true }) })
     (by decide)⟩

/-- C3 counterexample: an internal extractor reports success, the walk of
the output directory contains only a (non-file) entry of reported length
4096 — e.g. an empty subdirectory — so no non-empty regular file exists
(`get_extracted_files` is empty), yet `execute` returns `success = true`:
the source checks only `md.len() > 0` (common.rs line 753), not
`md.is_file()`. -/
theorem c3_counterexample :
    (execute
        { mkdir_ok := true, carve_ok := true, spawn_ok := true,
          wait_outcome := WaitOutcome.exited (Option.some 0),
          walk := [WalkEntry.ok "f.extracted/0/subdir".data
            (Option.some { is_file := false, len := 4096 })] }
        [] "f".data { name := "sig".data }
        (Option.some { utility := ExtractorType.internal (fun _ _ _ => { success := true }) })).result.success = true ∧
      get_extracted_files
        [WalkEntry.ok "f.extracted/0/subdir".data
          (Option.some { is_file := false, len := 4096 })] = [] := by
  decide

/-- C4 (amended): the carved temporary input file is deleted after the
child process terminates whenever an exit status is retrieved — a normal
exit with any code, or termination by signal reported with no exit code —
and this happens inside `proc_wait`, before `execute` judges the output
directory; but when `child.wait()` itself fails (the source's "status
unknown" branch, common.rs lines 662-665), `proc_wait` returns an error
without deleting the carved file. -/
theorem c4_proc_wait_deletes_carved_when_status_retrieved
    (exit_codes : List Int) (code : Option Int) :
    (proc_wait exit_codes (WaitOutcome.exited code)).carved_file_deleted = true := rfl

/-- C4 counterexample: when waiting for the child fails (no retrievable
status), `proc_wait` does not delete the carved file, refuting "deleted on
every outcome". -/
theorem c4_counterexample :
    ¬ ((proc_wait [] WaitOutcome.wait_err).carved_file_deleted = true) := by
  decide

/-- C5: whenever `execute` created its output directory and did not
panic, a final result with `success = false` implies the recursive
deletion of the per-offset output directory was invoked before returning. -/
theorem c5_execute_failure_removes_output_dir
    (env : ExecEnv) (file_data : List Nat) (file_path : List Char)
    (signature : SignatureResult) (extractor : Option Extractor)
    (h1 : (execute env file_data file_path signature extractor).panicked = false)
    (h2 : (execute env file_data file_path signature extractor).dir_created = true)
    (h3 : (execute env file_data file_path signature extractor).result.success = false) :
    (execute env file_data file_path signature extractor).removed_output_dir = true := by
  rcases execute_shape env file_data file_path signature extractor with he | he | he | ⟨ed, r, he⟩
  · rw [he] at h2; exact absurd h2 (by decide)
  · rw [he]
  · rw [he] at h1; exact absurd h1 (by decide)
  · rw [he] at h3 ⊢
    rw [finish_result_removed_eq, h3]
    rfl

/-- C5 witness: an external extractor exiting with the unaccepted code 1
fails, and the output directory removal is invoked. -/
theorem c5_witness :
    (execute
        { mkdir_ok := true, carve_ok := true, spawn_ok := true,
          wait_outcome := WaitOutcome.exited (Option.some 1), walk := [] }
        [] "f".data { name := "sig".data }
        (Option.some { utility := ExtractorType.external "unzip".data })).removed_output_dir
      = true :=
  c5_execute_failure_removes_output_dir
    { mkdir_ok := true, carve_ok := true, spawn_ok := true,
      wait_outcome := WaitOutcome.exited (Option.some 1), walk := [] }
    [] "f".data { name := "sig".data }
    (Option.some { utility := ExtractorType.external "unzip".data })
    (by decide) (by decide) (by decide)

/-- C6: `proc_wait` reports success (returns `Ok` with `success = true`)
if and only if the child terminated with an exit code that is `0` or a
member of the configured accepted-codes list; any other exit code fails,
termination by signal (no exit code) fails, a failed wait yields no
result, and exit code `0` succeeds even when `0` is absent from the
accepted-codes list. -/
theorem c6_proc_wait_exit_code_policy (exit_codes : List Int) (wait_result : WaitOutcome) :
    (∃ r, (proc_wait exit_codes wait_result).res = Option.some r ∧ r.success = true) ↔
      ∃ c, wait_result = WaitOutcome.exited (Option.some c) ∧ (c = 0 ∨ c ∈ exit_codes) := by
  cases wait_result with
  | wait_err =>
    simp only [proc_wait]
    constructor
    · rintro ⟨r, hr, -⟩
      exact absurd hr (by simp)
    · rintro ⟨c, hc, -⟩
      exact absurd hc (by simp)
  | exited status_code =>
    cases status_code with
    | none =>
      simp only [proc_wait]
      constructor
      · rintro ⟨r, hr, hs⟩
        rw [Option.some.injEq] at hr
        rw [← hr] at hs
        exact absurd hs (by decide)
      · rintro ⟨c, hc, -⟩
        exact absurd hc (by simp)
    | some code =>
      simp only [proc_wait]
      constructor
      · rintro ⟨r, hr, hs⟩
        rw [Option.some.injEq] at hr
        rw [← hr] at hs
        refine ⟨code, rfl, ?_⟩
        simpa [List.contains] using hs
      · rintro ⟨c, hc, hor⟩
        have hcc : code = c := by
          injection hc with h
          injection h
        subst hcc
        refine ⟨_, rfl, ?_⟩
        simpa [List.contains] using hor

/-- C6 witness: exit code 0 is reported as success even though the
accepted-codes list `[5]` does not contain 0. -/
theorem c6_witness :
    ∃ r, (proc_wait [5] (WaitOutcome.exited (Option.some 0))).res = Option.some r ∧
      r.success = true :=
  (c6_proc_wait_exit_code_policy [5] (WaitOutcome.exited (Option.some 0))).mpr
    ⟨0, rfl, Or.inl rfl⟩

/-- C7 (amended): for every call to `create_symlink` with a relative
target path and a chroot that contains no doubled separator and no `".."`
segment, the stored symlink target is the target resolved against the
symlink's own jailed parent directory and re-jailed to the chroot via
`safe_path_join`, so it lies inside the chroot: it starts with the chroot
and contains no `".."` segment.  Without the conditions on the chroot the
containment fails (see the counterexample). -/
theorem c7_create_symlink_relative_target_confined
    (symlink target chroot : List Char)
    (hrel : ¬ target.head? = some '/')
    (h1 : hasDS chroot = false) (h2 : ['.', '.'] ∉ splitSlash chroot) :
    (create_symlink symlink target chroot).target_path
        = safe_path_join
            (match rustParent (chrooted_path symlink chroot) with
             | Option.none => ['/']
             | Option.some parent_dir => parent_dir)
            target chroot ∧
      chroot <+: (create_symlink symlink target chroot).target_path ∧
      ['.', '.'] ∉ splitSlash (create_symlink symlink target chroot).target_path := by
  simp only [create_symlink, if_neg hrel]
  exact ⟨trivial, (safe_path_join_confined _ _ _ h1 h2).1, (safe_path_join_confined _ _ _ h1 h2).2⟩

/-- C7 witness: the spec's own example — a relative target
`"../../../../etc/passwd"` under chroot `"/tmp/x"` is stored as
`"/tmp/x/etc/passwd"`, a path inside `/tmp/x`, never `/etc/passwd`. -/
theorem c7_witness :
    (create_symlink "lnk".data "../../../../etc/passwd".data "/tmp/x".data).target_path
        = "/tmp/x/etc/passwd".data ∧
      "/tmp/x".data <+:
        (create_symlink "lnk".data "../../../../etc/passwd".data "/tmp/x".data).target_path ∧
      ['.', '.'] ∉ splitSlash
        (create_symlink "lnk".data "../../../../etc/passwd".data "/tmp/x".data).target_path :=
  ⟨by decide,
   (c7_create_symlink_relative_target_confined "lnk".data "../../../../etc/passwd".data
      "/tmp/x".data (by decide) (by decide) (by decide)).2.1,
   (c7_create_symlink_relative_target_confined "lnk".data "../../../../etc/passwd".data
      "/tmp/x".data (by decide) (by decide) (by decide)).2.2⟩

/-- C7 counterexample: under the chroot string `"//.."`, the relative
target `"t"` of a symlink `"lnk"` is stored as `"/../t"`, which does not
start with the chroot and still contains a `".."` segment — so the claimed
containment is false for arbitrary chroot strings. -/
theorem c7_counterexample :
    ¬ ("//..".data <+: (create_symlink "lnk".data "t".data "//..".data).target_path ∧
      ['.', '.'] ∉ splitSlash (create_symlink "lnk".data "t".data "//..".data).target_path) := by
  decide

/-- C8: in `spawn`, the carved file is produced as a symlink (to the
original source file, jailed under the root directory) if and only if the
signature match spans the entire source buffer (`offset = 0` and
`size = data.len()`); otherwise `create_file` is invoked, and whenever the
range is in bounds it writes exactly the byte range
`[offset, offset + size)` of the source buffer to the carved path. -/
theorem c8_spawn_whole_file_symlink_iff
    (file_data : List Nat) (file_path output_directory : List Char)
    (signature : SignatureResult) (extractor : Extractor) :
    ((spawn_carve file_data file_path output_directory signature extractor
        = CarveAction.symlinked
            (create_symlink
              (carved_file_path output_directory signature.name signature.offset
                extractor.extension)
              file_path ['/']))
      ↔ (signature.offset = 0 ∧ signature.size = file_data.length)) ∧
    (∀ trace, spawn_carve file_data file_path output_directory signature extractor
        = CarveAction.copied trace →
      signature.offset + signature.size ≤ file_data.length →
      trace.written_bytes
        = Option.some ((file_data.drop signature.offset).take signature.size)) := by
  constructor
  · constructor
    · intro h
      by_cases hc : signature.offset = 0 ∧ signature.size = file_data.length
      · exact hc
      · exfalso
        simp only [spawn_carve, if_neg hc] at h
        cases h
    · intro hc
      simp only [spawn_carve, if_pos hc]
  · intro trace h hle
    by_cases hc : signature.offset = 0 ∧ signature.size = file_data.length
    · simp only [spawn_carve, if_pos hc] at h
      cases h
    · simp only [spawn_carve, if_neg hc] at h
      injection h with h
      rw [← h]
      simp only [create_file, if_pos hle]

/-- C8 witness: a strict sub-range carve at offset 1, size 1 of `[7,8,9]`
copies exactly the byte `[8]`. -/
theorem c8_witness :
    (spawn_carve [7, 8, 9] "f".data "o".data { offset := 1, size := 1 }
        { utility := ExtractorType.external "x".data }
      = CarveAction.copied
          (create_file (carved_file_path "o".data [] 1 []) [7, 8, 9] 1 1 ['/'])) ∧
    (create_file (carved_file_path "o".data [] 1 []) [7, 8, 9] 1 1 ['/']).written_bytes
      = Option.some (([7, 8, 9].drop 1).take 1) :=
  ⟨by decide,
   (c8_spawn_whole_file_symlink_iff [7, 8, 9] "f".data "o".data { offset := 1, size := 1 }
      { utility := ExtractorType.external "x".data }).2
     _ (by decide) (by decide)⟩

/-- C9 (amended): for every current mode, `make_executable` computes as
the new mode the previous mode with exactly the execute-by-others
permission bit (octal 0o001, `UNIX_EXEC_FLAG = 1`) additionally set: no
existing permission bit is cleared, no other bit — in particular no
group/world write bit — is introduced.  The bit is execute-by-others, not
execute-by-owner (octal 0o100) as claimed. -/
theorem c9_make_executable_mode (mode : Nat) :
    make_executable_new_mode mode = mode ||| 1 ∧
      (∀ i, (make_executable_new_mode mode).testBit i ↔ (mode.testBit i ∨ i = 0)) := by
  refine ⟨rfl, fun i => ?_⟩
  show (mode ||| 1).testBit i ↔ _
  rw [Nat.testBit_or]
  cases i with
  | zero => simp [Nat.testBit]
  | succ n => simp [Nat.testBit_succ]

/-- C9 witness: the mode arithmetic applied at mode 0o644 = 420. -/
theorem c9_witness : make_executable_new_mode 420 = 420 ||| 1 :=
  (c9_make_executable_mode 420).1

/-- C9 counterexample: at previous mode 0o644 = 420, the claim predicts
0o744 = 420 ||| 64 (execute-by-owner added), but the code computes
0o645 = 421 (execute-by-others added). -/
theorem c9_counterexample : ¬ (make_executable_new_mode 420 = 420 ||| 64) := by
  decide

/-- C10: calling `execute` with no extractor supplied (the `Option`
argument is `none`, as opposed to an `ExtractorType.none` utility) does
not panic: it returns an `ExtractionResult` with `success = false`, and
whenever the output directory was created it invokes the recursive
deletion of that directory before returning. -/
theorem c10_execute_none_extractor_graceful
    (env : ExecEnv) (file_data : List Nat) (file_path : List Char)
    (signature : SignatureResult) :
    (execute env file_data file_path signature Option.none).panicked = false ∧
      (execute env file_data file_path signature Option.none).result.success = false ∧
      ((execute env file_data file_path signature Option.none).dir_created = true →
        (execute env file_data file_path signature Option.none).removed_output_dir = true) := by
  by_cases hm : env.mkdir_ok = true
  · simp [execute, hm]
  · simp [execute, hm]

/-- C10 witness: the no-extractor error path at a concrete environment,
with the directory removal actually invoked. -/
theorem c10_witness :
    (execute
        { mkdir_ok := true, carve_ok := true, spawn_ok := true,
          wait_outcome := WaitOutcome.exited (Option.some 0), walk := [] }
        [] "f".data { name := "sig".data } Option.none).removed_output_dir = true :=
  (c10_execute_none_extractor_graceful
    { mkdir_ok := true, carve_ok := true, spawn_ok := true,
      wait_outcome := WaitOutcome.exited (Option.some 0), walk := [] }
    [] "f".data { name := "sig".data }).2.2 (by decide)

end Binwalk
